import Mathlib

/-
Verification of the supervisord configuration/reconciliation model and RPC
control plane.  The definitions below are shallow embeddings of the Go
source files (supervisor.go, the config parser, the process-group index and
the XML-RPC client).  Components of the repository that are consumed but
whose source is not part of the four files (the `util` helpers, the
string-expression evaluator, the process manager and the XML walking layer)
are modelled from the specification; each such definition carries a doc
comment starting with `Modelled from the spec:`.
-/

set_option autoImplicit false

namespace Supervisord

/-! ### Association lists

Go maps with string keys appear throughout the source (`Config.entries`,
`ConfigEntry.keyValues`, `ProcessGroup.processGroup`).  They are embedded as
association lists: `lookupA` is map read, `setA` is map assignment
(overwrite the binding if the key is present, append it otherwise). -/

def lookupA {β : Type} : List (String × β) → String → Option β
  | [], _ => none
  | (k, v) :: rest, key => if key = k then some v else lookupA rest key

def setA {β : Type} : List (String × β) → String → β → List (String × β)
  | [], k, v => [(k, v)]
  | (k1, v1) :: rest, k, v =>
    if k = k1 then (k, v) :: rest else (k1, v1) :: setA rest k v

def keysA {β : Type} (l : List (String × β)) : List String :=
  l.map Prod.fst

/-! ### C1 — the reconciler (`supervisor.go`: `sub`, `createPrograms`)

`sub` is the literal translation of the `sub` function of `supervisor.go`:
the inner loop sets `exist` when a match is found, the outer loop appends
names for which `exist` stayed false. -/

def existIn (s : String) (arr2 : List String) : Bool :=
  arr2.foldl (fun exist s2 => if s = s2 then true else exist) false

def sub (arr1 : List String) (arr2 : List String) : List String :=
  arr1.foldl (fun result s => if existIn s arr2 then result else result ++ [s]) []

/-- Modelled from the spec: the Process Runtime collaborator's
`CreateOrUpdate(descriptor)` as it acts on the set of known process names
(`ProcessManager.CreateProcess`; the process-manager source is not among
the given files).  Creating a process that already exists is an update in
place, so the name set gains the name when absent. -/
def createProcess (procs : List String) (name : String) : List String :=
  if procs.contains name then procs else procs ++ [name]

/-- Modelled from the spec: the Process Runtime collaborator's
`Remove(name)` (`ProcessManager.Remove`), deleting the named process. -/
def removeProcess (procs : List String) (name : String) : List String :=
  procs.filter (fun n => n ≠ name)

/-- Translation of `Supervisor.createPrograms`: every program of the
freshly loaded store is created/updated, then every previously loaded
program name that is no longer in the store is removed.  `procs` is the
process-name set of the process manager, `prevPrograms` the previously
loaded program names, `programs` the store's current program name list.
Returns the new process-name set together with the list of removed
names. -/
def createPrograms (procs : List String) (prevPrograms : List String)
    (programs : List String) : List String × List String :=
  let procs1 := programs.foldl createProcess procs
  let removedPrograms := sub prevPrograms programs
  (removedPrograms.foldl removeProcess procs1, removedPrograms)

/-! ### C2 — the group index and its diff (`config/process_group.go`)

`ProcessGroup` keeps the mapping from program name to owning group name.
`GetAllGroup` collects the distinct group names (the Go code builds a set
from the map's values), `GetAllProcess` the programs of one group. -/

structure ProcessGroup where
  processGroup : List (String × String)

def GetAllGroup (pg : ProcessGroup) : List String :=
  (pg.processGroup.map Prod.snd).dedup

def GetAllProcess (pg : ProcessGroup) (group : String) : List String :=
  (pg.processGroup.filter (fun pr => pr.2 = group)).map Prod.fst

/-- Modelled from the spec: `util.Sub` (the util package is not among the
given files) — the set difference keeping first-list order. -/
def utilSub (l1 l2 : List String) : List String :=
  l1.filter (fun s => decide (s ∉ l2))

/-- Modelled from the spec: `util.IsSameStringArray` (util package not
among the given files) — program membership is compared as unordered sets
of names. -/
def IsSameStringArray (l1 l2 : List String) : Bool :=
  l1.all (fun s => decide (s ∈ l2)) && l2.all (fun s => decide (s ∈ l1))

/-- Translation of `ProcessGroup.Sub`: `added` is this snapshot's groups
minus the other's, `removed` the converse, and `changed` collects the
groups of this snapshot whose process list in the other snapshot is
non-empty but differs.  Returned in the Go order
`(added, changed, removed)`. -/
def pgSub (pg other : ProcessGroup) : List String × List String × List String :=
  let thisGroup := GetAllGroup pg
  let otherGroup := GetAllGroup other
  let added := utilSub thisGroup otherGroup
  let removed := utilSub otherGroup thisGroup
  let changed := thisGroup.filter (fun group =>
    !(GetAllProcess other group).isEmpty
      && !(IsSameStringArray (GetAllProcess pg group) (GetAllProcess other group)))
  (added, changed, removed)

/-- Modelled from the spec: the `unchanged(A,B)` operand of the testable
property of §8 — the groups present in both snapshots whose program
membership is the same unordered set (no source function corresponds to
it). -/
def unchangedGroups (pg other : ProcessGroup) : List String :=
  (GetAllGroup pg).filter (fun group =>
    decide (group ∈ GetAllGroup other)
      && IsSameStringArray (GetAllProcess pg group) (GetAllProcess other group))

/-- Concrete new snapshot for the C2 counterexample: one program `p1` in
group `g`. -/
def pgCexNew : ProcessGroup := ⟨[("p1", "g")]⟩

/-- Concrete old snapshot for the C2 counterexample: programs `p1`, `p2`
in group `g`. -/
def pgCexOld : ProcessGroup := ⟨[("p1", "g"), ("p2", "g")]⟩

/-! ### C3 / C6 — config entries, the expression evaluator and the
program expander (`config.go`: `ConfigEntry`, `Config.createEntry`,
`ConfigEntry.parse`, `Config.parseProgram`) -/

/-- An ini section as the parser sees it: the section name and its
key/value pairs.  `NewKey` on an existing key overwrites its value. -/
structure PSection where
  name : String
  keys : List (String × String)
deriving DecidableEq

def getKeyVal (s : PSection) (k : String) : String :=
  (lookupA s.keys k).getD ""

def hasKey (s : PSection) (k : String) : Bool :=
  (lookupA s.keys k).isSome

def setKey (s : PSection) (k v : String) : PSection :=
  ⟨s.name, setA s.keys k v⟩

structure ConfigEntry where
  configDir : String
  group : String
  name : String
  keyValues : List (String × String)
deriving DecidableEq

def newConfigEntry (configDir : String) : ConfigEntry :=
  ⟨configDir, "", "", []⟩

/-- Translation of `ConfigEntry.parse`: the entry takes the section's
name, and every key present in the section overwrites the stored value;
keys absent from the section are left as they were. -/
def entryParse (e : ConfigEntry) (s : PSection) : ConfigEntry :=
  { e with name := s.name,
           keyValues := s.keys.foldl (fun kv p => setA kv p.1 p.2) e.keyValues }

abbrev Entries := List (String × ConfigEntry)

/-- Translation of `Config.createEntry`: return the already existing
entry for `name`, or a fresh one for the configuration directory. -/
def createEntry (entries : Entries) (name : String) (configDir : String) : ConfigEntry :=
  match lookupA entries name with
  | some e => e
  | none => newConfigEntry configDir

/-- The `createEntry` / store / `entry.parse(section)` sequence used by
`Config.parse` and `Config.parseGroup` for a section. -/
def parseSectionEntry (entries : Entries) (configDir : String) (sect : PSection) : Entries :=
  setA entries sect.name (entryParse (createEntry entries sect.name configDir) sect)

/-- The scanning mode of the expression evaluator: plain text, right
after a percent sign, inside a placeholder name, or right after the
name's closing parenthesis (one format character pending). -/
inductive EvalMode where
  | plain
  | afterPercent
  | inName (acc : List Char)
  | afterClose (acc : List Char)

/-- Modelled from the spec: the Expression Evaluator
(`string_expression.go` is not among the given files).  A
percent-parenthesis placeholder (name up to the closing parenthesis,
followed by one format character) is replaced by its binding; a
placeholder name with no binding fails the whole evaluation; binding
values are inserted without being re-scanned; a percent sign not opening
a placeholder passes through literally; an unterminated placeholder at
the end of the input is malformed. -/
def evalFSM (b : List (String × String)) : EvalMode → List Char → Option (List Char)
  | EvalMode.plain, [] => some []
  | EvalMode.afterPercent, [] => some ['%']
  | EvalMode.inName _, [] => none
  | EvalMode.afterClose _, [] => none
  | EvalMode.plain, c :: rest =>
    if c = '%' then evalFSM b EvalMode.afterPercent rest
    else (evalFSM b EvalMode.plain rest).map (fun t => c :: t)
  | EvalMode.afterPercent, c :: rest =>
    if c = '(' then evalFSM b (EvalMode.inName []) rest
    else if c = '%' then (evalFSM b EvalMode.afterPercent rest).map (fun t => '%' :: t)
    else (evalFSM b EvalMode.plain rest).map (fun t => '%' :: c :: t)
  | EvalMode.inName acc, c :: rest =>
    if c = ')' then evalFSM b (EvalMode.afterClose acc) rest
    else evalFSM b (EvalMode.inName (acc ++ [c])) rest
  | EvalMode.afterClose acc, _fmt :: rest =>
    match lookupA b (String.mk acc) with
    | some v => (evalFSM b EvalMode.plain rest).map (fun t => v.data ++ t)
    | none => none

/-- Modelled from the spec: `StringExpression.Eval` on a whole string. -/
def eval (b : List (String × String)) (s : String) : Option String :=
  (evalFSM b EvalMode.plain s.data).map String.mk

/-- `strings.HasPrefix` on the underlying character lists. -/
def strHasPre (s pre : String) : Bool :=
  decide (pre.data <+: s.data)

/-- The prefix recognized by `Config.isProgramOrEventListener`:
`program:` is checked first, then `eventlistener:`. -/
def sectionPre (sect : PSection) : Option String :=
  if strHasPre sect.name "program:" then some "program:"
  else if strHasPre sect.name "eventlistener:" then some "eventlistener:"
  else none

/-- Decimal digits to a number, failing on a non-digit or an empty
list. -/
def parseNatDigits : List Char → Option Nat
  | [] => none
  | l => l.foldl (fun acc c =>
      match acc with
      | none => none
      | some n =>
        if 48 ≤ c.toNat ∧ c.toNat ≤ 57 then some (n * 10 + (c.toNat - 48))
        else none)
      (some 0)

/-- `strconv.Atoi`-style integer parsing, as `section.Key(...).Int()`
needs it. -/
def parseInt (s : String) : Option Int :=
  match s.data with
  | '-' :: rest => (parseNatDigits rest).map (fun n => -(n : Int))
  | l => (parseNatDigits l).map (fun n => (n : Int))

/-- `section.Key("numprocs").Int()` with fallback 1 on a missing or
non-integer value. -/
def sectNumProcs (sect : PSection) : Int :=
  ((lookupA sect.keys "numprocs").bind parseInt).getD 1

def sectProgramName (sect : PSection) (pre : String) : String :=
  sect.name.drop pre.length

/-- `originalProcName`: the `process_name` pattern when the key exists,
otherwise the program name. -/
def sectOriginalProcName (sect : PSection) (pre : String) : String :=
  if hasKey sect "process_name" then getKeyVal sect "process_name"
  else sectProgramName sect pre

def processNumPlaceholder : String := "%(process_num)"

/-- The crash path of `Config.parseProgram`'s defect check: with
`numprocs > 1` and no `process_name` key, `section.GetKey` returns a nil
key, and the `log.Fields` literal evaluates `procNameKey.Value()`
unconditionally — the `err != nil ||` only short-circuits the
`strings.Index` call — so the program nil-dereferences and panics,
aborting the load before the expansion loop. -/
def sectPanics (sect : PSection) : Bool :=
  decide (1 < sectNumProcs sect) && !(hasKey sect "process_name")

/-- The load-time defect report of `Config.parseProgram`: with
`numprocs > 1` and a `process_name` pattern that is present but lacks the
`process_num` placeholder, an error is logged (the generated names would
collide).  When the pattern is missing the check instead panics, see
`sectPanics`. -/
def sectWarnings (sect : PSection) : List String :=
  if 1 < sectNumProcs sect
      ∧ hasKey sect "process_name" = true
      ∧ ¬ (processNumPlaceholder.data <:+: (getKeyVal sect "process_name").data)
  then ["no process_num in process name"] else []

structure ParseCtx where
  cfgDir : String
  pre : String
  programName : String
  groupName : String
  originalProcName : String

/-- The bindings `parseProgram` passes to the Expression Evaluator for
instance `i`. -/
def envsAt (ctx : ParseCtx) (i : Nat) : List (String × String) :=
  [("program_name", ctx.programName), ("process_num", toString i),
   ("group_name", ctx.groupName), ("here", ctx.cfgDir)]

/-- One iteration of the `parseProgram` expansion loop for instance `i`:
evaluate the command (skip the instance on failure, otherwise write it
back into the section), evaluate the instance name (skip on failure),
write `process_name`, `numprocs_start` (= i-1) and `process_num` (= i)
into the section, and create/overwrite the entry keyed by the generated
instance name. -/
def expandStep (ctx : ParseCtx) (st : Entries × PSection) (i : Nat) : Entries × PSection :=
  match eval (envsAt ctx i) (getKeyVal st.2 "command") with
  | none => st
  | some cmd =>
    let sect1 := setKey st.2 "command" cmd
    match eval (envsAt ctx i) ctx.originalProcName with
    | none => (st.1, sect1)
    | some procName =>
      let sect2 := setKey (setKey (setKey sect1 "process_name" procName)
        "numprocs_start" (toString (i - 1))) "process_num" (toString i)
      let entry0 := createEntry st.1 procName ctx.cfgDir
      let entry1 := entryParse entry0 sect2
      let entry2 := { entry1 with name := ctx.pre ++ procName, group := ctx.groupName }
      (setA st.1 procName entry2, sect2)

/-- The evaluation context of one program/eventlistener section.  The
group name is `programGroup.GetGroup(programName, programName)`: the
stored group of the program, defaulting to the program's own name. -/
def sectCtx (cfgDir : String) (pgAssoc : List (String × String))
    (sect : PSection) (pre : String) : ParseCtx :=
  let programName := sectProgramName sect pre
  ⟨cfgDir, pre, programName, (lookupA pgAssoc programName).getD programName,
   sectOriginalProcName sect pre⟩

/-- Translation of `Config.parseProgram` restricted to one section: a
non-program section is left alone; a program/eventlistener section first
runs the defect check — with `numprocs > 1` and no `process_name` key the
source nil-dereferences the key in the `log.Fields` literal and panics,
aborting the load with no entries (`none`) — and otherwise runs the
expansion loop for `i = 1 .. numprocs`.  On the non-panicking path it
returns the new entry map and the defect reports. -/
def parseProgramSection (cfgDir : String) (entries : Entries)
    (pgAssoc : List (String × String)) (sect : PSection) :
    Option (Entries × List String) :=
  match sectionPre sect with
  | none => some (entries, [])
  | some pre =>
    if sectPanics sect then none
    else
      some ((((List.range' 1 (sectNumProcs sect).toNat).foldl
          (expandStep (sectCtx cfgDir pgAssoc sect pre)) (entries, sect)).1,
        sectWarnings sect))

/-- The state of the expansion loop after the first `k` instances. -/
def stateAt (ctx : ParseCtx) (entries : Entries) (sect : PSection) :
    Nat → Entries × PSection
  | 0 => (entries, sect)
  | k + 1 => expandStep ctx (stateAt ctx entries sect k) (k + 1)

/-! ### C7 / C8 — processes and the RPC lifecycle operations
(`supervisor.go`: `StartProcessGroup`, `StopProcessGroup`,
`StopProcess`) -/

/-- The process states of the Process Runtime collaborator. -/
inductive ProcState where
  | Stopped
  | Starting
  | Running
  | Backoff
  | Stopping
  | Exited
  | Fatal
  | Unknown
deriving DecidableEq

structure Process where
  name : String
  group : String
  state : ProcState
deriving DecidableEq

/-- Modelled from the spec: `Start(handle, wait)` of the Process Runtime
collaborator (`process.go` is not among the given files) — the process is
asked to run. -/
def procStart (p : Process) (_wait : Bool) : Process :=
  { p with state := ProcState.Running }

/-- Modelled from the spec: `Stop(handle, wait)` of the Process Runtime
collaborator — the process is asked to stop. -/
def procStop (p : Process) (_wait : Bool) : Process :=
  { p with state := ProcState.Stopped }

/-- The descriptor fields of `getProcessInfo` that the embedded `Process`
carries. -/
structure ProcessInfo where
  name : String
  group : String
  state : ProcState
deriving DecidableEq

def getProcessInfo (p : Process) : ProcessInfo :=
  ⟨p.name, p.group, p.state⟩

/-- Modelled from the spec: `ProcessManager.Find` — the first process
with the given name. -/
def findProc : List Process → String → Option Process
  | [], _ => none
  | p :: rest, name => if p.name = name then some p else findProc rest name

/-- One `ForEachProcess` step of the group fan-out: a process whose group
matches is operated on and its post-operation descriptor appended to the
reply; other processes are untouched. -/
def groupOpStep (f : Process → Process) (name : String)
    (acc : List Process × List ProcessInfo) (p : Process) :
    List Process × List ProcessInfo :=
  if p.group = name then
    (acc.1 ++ [f p], acc.2 ++ [getProcessInfo (f p)])
  else (acc.1 ++ [p], acc.2)

/-- Translation of `Supervisor.StartProcessGroup`: start every process of
the group, reply with the post-operation descriptors, never an error. -/
def startProcessGroup (procs : List Process) (name : String) (wait : Bool) :
    List Process × List ProcessInfo × Option String :=
  let r := procs.foldl (groupOpStep (fun p => procStart p wait) name) ([], [])
  (r.1, r.2, none)

/-- Translation of `Supervisor.StopProcessGroup`: stop every process of
the group, reply with the post-operation descriptors, never an error. -/
def stopProcessGroup (procs : List Process) (name : String) (wait : Bool) :
    List Process × List ProcessInfo × Option String :=
  let r := procs.foldl (groupOpStep (fun p => procStop p wait) name) ([], [])
  (r.1, r.2, none)

/-- `proc.Stop(wait)` applied to the process `Find` returned (the first
name match); the rest of the process set is untouched. -/
def stopFirstMatch : List Process → String → Bool → List Process
  | [], _, _ => []
  | p :: rest, name, wait =>
    if p.name = name then procStop p wait :: rest
    else p :: stopFirstMatch rest name wait

/-- Translation of `Supervisor.StopProcess`: find the named process;
absent, fail with the not-found error and an unchanged process set
(`Success` keeps its zero value `false`); present, stop it and reply
`Success = true` with no error. -/
def stopProcess (procs : List Process) (name : String) (wait : Bool) :
    List Process × Bool × Option String :=
  match findProc procs name with
  | none => (procs, false, some ("fail to find process " ++ name))
  | some _ => (stopFirstMatch procs name wait, true, none)

/-! ### C9 / C10 — supervisor daemon state and the group RPC stubs
(`supervisor.go`: `GetState`, `AddProcessGroup`, `RemoveProcessGroup`) -/

structure SupervisorState where
  entries : Entries
  programGroup : List (String × String)
  procs : List Process
  restarting : Bool

structure StateInfo where
  statecode : Int
  statename : String
deriving DecidableEq

/-- Translation of `Supervisor.GetState`: the reply is always statecode 1
/ RUNNING, whatever the supervisor state (the comment in the source names
2 FATAL, 1 RUNNING, 0 RESTARTING, -1 SHUTDOWN). -/
def getState (_s : SupervisorState) : StateInfo :=
  ⟨1, "RUNNING"⟩

/-- Translation of `Supervisor.AddProcessGroup`: reply `Success = false`,
no error, nothing touched. -/
def addProcessGroup (s : SupervisorState) (_name : String) :
    SupervisorState × Bool × Option String :=
  (s, false, none)

/-- Translation of `Supervisor.RemoveProcessGroup`: reply
`Success = false`, no error, nothing touched. -/
def removeProcessGroup (s : SupervisorState) (_name : String) :
    SupervisorState × Bool × Option String :=
  (s, false, none)

/-! ### C4 / C5 — the nested-array reply decoder
(`xmlrpcclient/xmlrpc-client.go`: `ReloadConfig`).

Modelled from the spec: the XML walking layer (`XMLProcessorManager`) is
not among the given files and §9 of the spec directs the decoder to be
designed against the wire-format invariant of §4.5 — one outer array of
at most three inner string arrays, decoded positionally — rather than
against the event-sequence counting of the call site. -/

/-- A reply body value: a string leaf or an array of values. -/
inductive XValue where
  | str (s : String)
  | arr (items : List XValue)

structure ReloadConfigResult where
  addedGroup : List String
  changedGroup : List String
  removedGroup : List String
deriving DecidableEq

/-- The string leaves of one inner array, in order; anything that is not
a string leaf at this level is malformed. -/
def stringLeaves : List XValue → Option (List String)
  | [] => some []
  | XValue.str s :: rest => (stringLeaves rest).map (fun l => s :: l)
  | XValue.arr _ :: _ => none

/-- The outer array's elements decoded as inner string arrays, in
positional order; a string leaf at the outer level (outside any inner
array) is malformed. -/
def innerLists : List XValue → Option (List (List String))
  | [] => some []
  | XValue.arr items :: rest =>
    match stringLeaves items, innerLists rest with
    | some l, some ls => some (l :: ls)
    | _, _ => none
  | XValue.str _ :: _ => none

/-- Modelled from the spec: `Decode(replyBody)` of §4.5 — the first
encountered inner array feeds `added`, the second `changed`, the third
`removed`; more than three inner arrays, or a leaf outside any inner
array, is a malformed reply (`none`). -/
def decodeReply : XValue → Option ReloadConfigResult
  | XValue.str _ => none
  | XValue.arr inners =>
    match innerLists inners with
    | none => none
    | some ls =>
      if ls.length ≤ 3 then some ⟨ls.getD 0 [], ls.getD 1 [], ls.getD 2 []⟩
      else none

/-- The fixed-order three-array wire encoding of a reload-config result:
`[addedGroups, changedGroups, removedGroups]`. -/
def encodeReply (r : ReloadConfigResult) : XValue :=
  XValue.arr [XValue.arr (r.addedGroup.map XValue.str),
              XValue.arr (r.changedGroup.map XValue.str),
              XValue.arr (r.removedGroup.map XValue.str)]

/-- The program section of the C3 expansion example: `numprocs = 3` with
the canonical instance-name pattern of the spec's scenario. -/
def c3Sect : PSection :=
  ⟨"program:web",
   [("numprocs", "3"),
    ("process_name", "%(program_name)s_%(process_num)d"),
    ("command", "run %(process_num)d")]⟩

/-- The failing input of claim C3's code bug: `numprocs = 2` with an
evaluable command and no `process_name` key.  The program name itself
contains the `process_num` placeholder, so the generated names `a1b`,
`a2b` would be distinct — yet the source panics on the nil
`process_name` key before expanding. -/
def c3PanicSect : PSection :=
  ⟨"program:a%(process_num)b", [("numprocs", "2"), ("command", "run")]⟩

end Supervisord

namespace Supervisord

/-! ### Lemmas about association lists and the reconciler -/

theorem lookupA_setA_self {β : Type} (l : List (String × β)) (k : String) (v : β) :
    lookupA (setA l k v) k = some v := by
  induction l with
  | nil => simp [setA, lookupA]
  | cons p rest ih =>
    obtain ⟨k1, v1⟩ := p
    by_cases h : k = k1
    · simp [setA, h, lookupA]
    · simp [setA, h, lookupA, ih]

theorem lookupA_setA_ne {β : Type} (l : List (String × β)) (k k2 : String) (v : β)
    (h : k2 ≠ k) : lookupA (setA l k v) k2 = lookupA l k2 := by
  induction l with
  | nil => simp [setA, lookupA, h]
  | cons p rest ih =>
    obtain ⟨k1, v1⟩ := p
    by_cases h1 : k = k1
    · subst h1
      simp [setA, lookupA, h]
    · by_cases h2 : k2 = k1
      · simp [setA, h1, lookupA, h2]
      · simp [setA, h1, lookupA, h2, ih]

theorem existIn_foldl_acc (s : String) (l : List String) (b : Bool) :
    l.foldl (fun exist s2 => if s = s2 then true else exist) b
      = (b || decide (s ∈ l)) := by
  induction l generalizing b with
  | nil => simp
  | cons x rest ih =>
    rw [List.foldl_cons, ih]
    by_cases h : s = x
    · simp [h]
    · simp [h, List.mem_cons]

theorem existIn_eq_mem (s : String) (l : List String) :
    existIn s l = decide (s ∈ l) := by
  simpa [existIn] using existIn_foldl_acc s l false

theorem sub_foldl_acc (arr1 arr2 : List String) (acc : List String) :
    arr1.foldl (fun result s => if existIn s arr2 then result else result ++ [s]) acc
      = acc ++ arr1.filter (fun s => decide (s ∉ arr2)) := by
  induction arr1 generalizing acc with
  | nil => simp
  | cons x rest ih =>
    rw [List.foldl_cons]
    by_cases h : x ∈ arr2
    · have hc : existIn x arr2 = true := by rw [existIn_eq_mem]; exact decide_eq_true h
      rw [if_pos hc, ih, List.filter_cons]
      simp [h]
    · have hc : ¬ existIn x arr2 = true := by rw [existIn_eq_mem]; simpa using h
      rw [if_neg hc, ih, List.filter_cons]
      simp [h]

theorem sub_eq_filter (arr1 arr2 : List String) :
    sub arr1 arr2 = arr1.filter (fun s => decide (s ∉ arr2)) := by
  simpa [sub] using sub_foldl_acc arr1 arr2 []

theorem mem_foldl_createProcess (x : String) (l : List String) (a : List String) :
    x ∈ l.foldl createProcess a ↔ (x ∈ a ∨ x ∈ l) := by
  induction l generalizing a with
  | nil => simp
  | cons y rest ih =>
    rw [List.foldl_cons, ih]
    unfold createProcess
    by_cases h : y ∈ a
    · rw [if_pos (by simpa using h)]
      simp only [List.mem_cons]
      constructor
      · rintro (hx | hx)
        · exact Or.inl hx
        · exact Or.inr (Or.inr hx)
      · rintro (hx | hx | hx)
        · exact Or.inl hx
        · exact Or.inl (by rw [hx]; exact h)
        · exact Or.inr hx
    · rw [if_neg (by simpa using h)]
      simp only [List.mem_append, List.mem_singleton, List.mem_cons]
      tauto

theorem mem_foldl_removeProcess (x : String) (l : List String) (a : List String) :
    x ∈ l.foldl removeProcess a ↔ (x ∈ a ∧ x ∉ l) := by
  induction l generalizing a with
  | nil => simp
  | cons y rest ih =>
    rw [List.foldl_cons, ih]
    unfold removeProcess
    constructor
    · rintro ⟨hx, hrest⟩
      rw [List.mem_filter] at hx
      obtain ⟨hxa, hxy0⟩ := hx
      have hxy : x ≠ y := by simpa using hxy0
      exact ⟨hxa, by simp [List.mem_cons, hxy, hrest]⟩
    · rintro ⟨hxa, hmem⟩
      have hxy : x ≠ y := fun h => hmem (by rw [h]; exact List.mem_cons_self y rest)
      have hrest : x ∉ rest := fun h => hmem (List.mem_cons_of_mem _ h)
      exact ⟨List.mem_filter.mpr ⟨hxa, by simpa using hxy⟩, hrest⟩

/-- Claim C1: for every previous-program-name list and loaded store, the
reconciliation pass (`createPrograms`) removes exactly the previous names
that are absent from the store's current program-name list, in the order
they had in the previous list, and creates/updates every program currently
in the store. -/
theorem c1_reconcile (procs prevPrograms programs : List String) :
    (createPrograms procs prevPrograms programs).2
        = prevPrograms.filter (fun s => decide (s ∉ programs))
    ∧ (∀ p ∈ programs, p ∈ (createPrograms procs prevPrograms programs).1)
    ∧ (∀ n ∈ (createPrograms procs prevPrograms programs).2,
        n ∉ (createPrograms procs prevPrograms programs).1) := by
  refine ⟨by simp [createPrograms, sub_eq_filter], ?_, ?_⟩
  · intro p hp
    unfold createPrograms
    simp only
    rw [mem_foldl_removeProcess]
    refine ⟨(mem_foldl_createProcess _ _ _).mpr (Or.inr hp), ?_⟩
    rw [sub_eq_filter]
    intro hmem
    rw [List.mem_filter] at hmem
    exact absurd hp (by simpa using hmem.2)
  · intro n hn
    unfold createPrograms at hn ⊢
    simp only at hn ⊢
    rw [mem_foldl_removeProcess]
    rintro ⟨-, hnot⟩
    exact hnot hn

/-! ### Lemmas about the group index diff (C2) -/

theorem mem_GetAllGroup (pg : ProcessGroup) (g : String) :
    g ∈ GetAllGroup pg ↔ ∃ p, (p, g) ∈ pg.processGroup := by
  unfold GetAllGroup
  rw [List.mem_dedup, List.mem_map]
  constructor
  · rintro ⟨⟨p, g2⟩, hmem, rfl⟩
    exact ⟨p, hmem⟩
  · rintro ⟨p, hmem⟩
    exact ⟨(p, g), hmem, rfl⟩

theorem mem_GetAllProcess (pg : ProcessGroup) (g p : String) :
    p ∈ GetAllProcess pg g ↔ (p, g) ∈ pg.processGroup := by
  unfold GetAllProcess
  rw [List.mem_map]
  constructor
  · rintro ⟨⟨p1, g1⟩, hmem, rfl⟩
    rw [List.mem_filter] at hmem
    have hg : g1 = g := by simpa using hmem.2
    subst hg
    exact hmem.1
  · intro hmem
    exact ⟨(p, g), List.mem_filter.mpr ⟨hmem, by simp⟩, rfl⟩

theorem GetAllProcess_eq_nil (pg : ProcessGroup) (g : String) :
    GetAllProcess pg g = [] ↔ g ∉ GetAllGroup pg := by
  rw [List.eq_nil_iff_forall_not_mem, mem_GetAllGroup]
  constructor
  · rintro h ⟨p, hp⟩
    exact h p ((mem_GetAllProcess pg g p).mpr hp)
  · intro h p hp
    exact h ⟨p, (mem_GetAllProcess pg g p).mp hp⟩

theorem isSameStringArray_iff (l1 l2 : List String) :
    IsSameStringArray l1 l2 = true ↔ (∀ s, s ∈ l1 ↔ s ∈ l2) := by
  unfold IsSameStringArray
  rw [Bool.and_eq_true, List.all_eq_true, List.all_eq_true]
  constructor
  · rintro ⟨h1, h2⟩ s
    exact ⟨fun hs => by simpa using h1 s hs, fun hs => by simpa using h2 s hs⟩
  · intro h
    exact ⟨fun s hs => by simpa using (h s).mp hs,
           fun s hs => by simpa using (h s).mpr hs⟩

theorem mem_pgSub_added (pg other : ProcessGroup) (g : String) :
    g ∈ (pgSub pg other).1 ↔ (g ∈ GetAllGroup pg ∧ g ∉ GetAllGroup other) := by
  have hrfl : (pgSub pg other).1 = utilSub (GetAllGroup pg) (GetAllGroup other) := rfl
  rw [hrfl]
  unfold utilSub
  rw [List.mem_filter]
  simp

theorem mem_pgSub_removed (pg other : ProcessGroup) (g : String) :
    g ∈ (pgSub pg other).2.2 ↔ (g ∈ GetAllGroup other ∧ g ∉ GetAllGroup pg) := by
  have hrfl : (pgSub pg other).2.2 = utilSub (GetAllGroup other) (GetAllGroup pg) := rfl
  rw [hrfl]
  unfold utilSub
  rw [List.mem_filter]
  simp

theorem mem_pgSub_changed (pg other : ProcessGroup) (g : String) :
    g ∈ (pgSub pg other).2.1 ↔
      (g ∈ GetAllGroup pg ∧ g ∈ GetAllGroup other
        ∧ ¬ (∀ p, p ∈ GetAllProcess pg g ↔ p ∈ GetAllProcess other g)) := by
  have hrfl : (pgSub pg other).2.1 = (GetAllGroup pg).filter (fun group =>
      !(GetAllProcess other group).isEmpty
        && !(IsSameStringArray (GetAllProcess pg group) (GetAllProcess other group))) := rfl
  rw [hrfl, List.mem_filter, Bool.and_eq_true, Bool.not_eq_true', Bool.not_eq_true']
  constructor
  · rintro ⟨hg, hne, hsame⟩
    have hne2 : GetAllProcess other g ≠ [] := by
      intro h0
      rw [h0] at hne
      simp [List.isEmpty] at hne
    have hgo : g ∈ GetAllGroup other := by
      by_contra hno
      exact hne2 ((GetAllProcess_eq_nil other g).mpr hno)
    refine ⟨hg, hgo, ?_⟩
    intro hall
    rw [← isSameStringArray_iff] at hall
    rw [hall] at hsame
    simp at hsame
  · rintro ⟨hg, hgo, hdiff⟩
    refine ⟨hg, ?_, ?_⟩
    · have hne2 : GetAllProcess other g ≠ [] :=
        fun h0 => ((GetAllProcess_eq_nil other g).mp h0) hgo
      cases hcs : GetAllProcess other g with
      | nil => exact absurd hcs hne2
      | cons a l => simp [List.isEmpty]
    · cases hb : IsSameStringArray (GetAllProcess pg g) (GetAllProcess other g)
      · rfl
      · exact absurd ((isSameStringArray_iff _ _).mp hb) hdiff

theorem mem_unchangedGroups (pg other : ProcessGroup) (g : String) :
    g ∈ unchangedGroups pg other ↔
      (g ∈ GetAllGroup pg ∧ g ∈ GetAllGroup other
        ∧ ∀ p, p ∈ GetAllProcess pg g ↔ p ∈ GetAllProcess other g) := by
  unfold unchangedGroups
  rw [List.mem_filter, Bool.and_eq_true]
  rw [isSameStringArray_iff, decide_eq_true_eq]

/-- Claim C2 counterexample: with new snapshot `{p1 ↦ g}` and old snapshot
`{p1 ↦ g, p2 ↦ g}`, group `g` is in both snapshots but its membership
changed, so it is in none of `added`, `removed`, `unchanged(new, old)`:
the claimed identity `added ∪ removed ∪ unchanged = groups(new) ∪
groups(old)` fails (the left side misses `g`). -/
theorem c2_union_counterexample :
    ¬ (∀ g : String,
        (g ∈ (pgSub pgCexNew pgCexOld).1 ∨ g ∈ (pgSub pgCexNew pgCexOld).2.2
          ∨ g ∈ unchangedGroups pgCexNew pgCexOld)
        ↔ (g ∈ GetAllGroup pgCexNew ∨ g ∈ GetAllGroup pgCexOld)) := by
  intro h
  have h2 := (h "g").mpr (Or.inl (by decide))
  revert h2
  decide

/-- Claim C2 (amended): `added`, `changed`, `removed` are exactly the
groups only in the new snapshot, the groups in both with differing
membership (as unordered sets), and the groups only in the old snapshot;
the three lists are pairwise disjoint; and `added ∪ removed ∪ changed ∪
unchanged(new, old)` equals `groups(new) ∪ groups(old)` (the original
claim omitted `changed` from the union). -/
theorem c2_diff_amended (pg other : ProcessGroup) :
    (∀ g, g ∈ (pgSub pg other).1 ↔ (g ∈ GetAllGroup pg ∧ g ∉ GetAllGroup other))
    ∧ (∀ g, g ∈ (pgSub pg other).2.2 ↔ (g ∈ GetAllGroup other ∧ g ∉ GetAllGroup pg))
    ∧ (∀ g, g ∈ (pgSub pg other).2.1 ↔ (g ∈ GetAllGroup pg ∧ g ∈ GetAllGroup other
          ∧ ¬ (∀ p, p ∈ GetAllProcess pg g ↔ p ∈ GetAllProcess other g)))
    ∧ (∀ g, g ∈ (pgSub pg other).1 → g ∉ (pgSub pg other).2.1)
    ∧ (∀ g, g ∈ (pgSub pg other).1 → g ∉ (pgSub pg other).2.2)
    ∧ (∀ g, g ∈ (pgSub pg other).2.1 → g ∉ (pgSub pg other).2.2)
    ∧ (∀ g, (g ∈ (pgSub pg other).1 ∨ g ∈ (pgSub pg other).2.2
          ∨ g ∈ (pgSub pg other).2.1 ∨ g ∈ unchangedGroups pg other)
        ↔ (g ∈ GetAllGroup pg ∨ g ∈ GetAllGroup other)) := by
  refine ⟨mem_pgSub_added pg other, mem_pgSub_removed pg other,
    mem_pgSub_changed pg other, ?_, ?_, ?_, ?_⟩
  · intro g ha hc
    rw [mem_pgSub_added] at ha
    rw [mem_pgSub_changed] at hc
    exact ha.2 hc.2.1
  · intro g ha hr
    rw [mem_pgSub_added] at ha
    rw [mem_pgSub_removed] at hr
    exact ha.2 hr.1
  · intro g hc hr
    rw [mem_pgSub_changed] at hc
    rw [mem_pgSub_removed] at hr
    exact hr.2 hc.1
  · intro g
    constructor
    · rintro (h | h | h | h)
      · exact Or.inl ((mem_pgSub_added pg other g).mp h).1
      · exact Or.inr ((mem_pgSub_removed pg other g).mp h).1
      · exact Or.inl ((mem_pgSub_changed pg other g).mp h).1
      · exact Or.inl ((mem_unchangedGroups pg other g).mp h).1
    · intro h
      by_cases hn : g ∈ GetAllGroup pg
      · by_cases ho : g ∈ GetAllGroup other
        · by_cases hs : ∀ p, p ∈ GetAllProcess pg g ↔ p ∈ GetAllProcess other g
          · exact Or.inr (Or.inr (Or.inr
              ((mem_unchangedGroups pg other g).mpr ⟨hn, ho, hs⟩)))
          · exact Or.inr (Or.inr (Or.inl
              ((mem_pgSub_changed pg other g).mpr ⟨hn, ho, hs⟩)))
        · exact Or.inl ((mem_pgSub_added pg other g).mpr ⟨hn, ho⟩)
      · rcases h with h | h
        · exact absurd h hn
        · exact Or.inr (Or.inl ((mem_pgSub_removed pg other g).mpr ⟨h, hn⟩))

/-- Concrete instantiation of `c2_diff_amended`: for the two snapshots of
the counterexample, group `g` is reported as changed. -/
theorem c2_diff_amended_witness :
    "g" ∈ (pgSub pgCexNew pgCexOld).2.1 := by
  refine ((c2_diff_amended pgCexNew pgCexOld).2.2.1 "g").mpr ⟨by decide, by decide, ?_⟩
  intro hall
  have h2 := (hall "p2").mpr (by decide)
  revert h2
  decide

/-- Concrete instantiation of `c1_reconcile`: with previous programs
`["a", "b", "c"]` and current store programs `["b", "d"]`, exactly
`["a", "c"]` is removed (in previous order) and both store programs end up
present. -/
theorem c1_reconcile_witness :
    (createPrograms [] ["a", "b", "c"] ["b", "d"]).2 = ["a", "c"]
    ∧ "d" ∈ (createPrograms [] ["a", "b", "c"] ["b", "d"]).1
    ∧ "a" ∉ (createPrograms [] ["a", "b", "c"] ["b", "d"]).1 := by
  refine ⟨?_, ?_, ?_⟩
  · rw [(c1_reconcile [] ["a", "b", "c"] ["b", "d"]).1]
    decide
  · exact (c1_reconcile [] ["a", "b", "c"] ["b", "d"]).2.1 "d" (by decide)
  · exact (c1_reconcile [] ["a", "b", "c"] ["b", "d"]).2.2 "a" (by
      rw [(c1_reconcile [] ["a", "b", "c"] ["b", "d"]).1]; decide)

/-! ### Lemmas about the group fan-out and single-target operations
(C7, C8) -/

theorem groupOp_foldl_acc (f : Process → Process) (name : String)
    (procs : List Process) : ∀ (a1 : List Process) (a2 : List ProcessInfo),
    procs.foldl (groupOpStep f name) (a1, a2)
      = (a1 ++ procs.map (fun p => if p.group = name then f p else p),
         a2 ++ (procs.filter (fun p => decide (p.group = name))).map
           (fun p => getProcessInfo (f p))) := by
  induction procs with
  | nil => intro a1 a2; simp
  | cons p rest ih =>
    intro a1 a2
    rw [List.foldl_cons]
    by_cases h : p.group = name
    · rw [show groupOpStep f name (a1, a2) p
          = (a1 ++ [f p], a2 ++ [getProcessInfo (f p)]) from by
        unfold groupOpStep; rw [if_pos h]]
      rw [ih]
      simp [h, List.filter_cons, List.append_assoc]
    · rw [show groupOpStep f name (a1, a2) p = (a1 ++ [p], a2) from by
        unfold groupOpStep; rw [if_neg h]]
      rw [ih]
      simp [h, List.filter_cons, List.append_assoc]

/-- Claim C7: the group-scoped start and stop operations never return an
error; their reply is the list of post-operation descriptors of exactly
the processes whose group equals the given name; in particular a group
with zero members yields success with an empty reply. -/
theorem c7_group_fanout (procs : List Process) (name : String) (wait : Bool) :
    (startProcessGroup procs name wait).2.2 = none
    ∧ (stopProcessGroup procs name wait).2.2 = none
    ∧ (startProcessGroup procs name wait).2.1
        = (procs.filter (fun p => decide (p.group = name))).map
            (fun p => getProcessInfo (procStart p wait))
    ∧ (stopProcessGroup procs name wait).2.1
        = (procs.filter (fun p => decide (p.group = name))).map
            (fun p => getProcessInfo (procStop p wait))
    ∧ ((∀ p ∈ procs, p.group ≠ name) →
        (startProcessGroup procs name wait).2.1 = []
        ∧ (stopProcessGroup procs name wait).2.1 = []) := by
  have hstart : (startProcessGroup procs name wait).2.1
      = (procs.filter (fun p => decide (p.group = name))).map
          (fun p => getProcessInfo (procStart p wait)) := by
    unfold startProcessGroup
    rw [groupOp_foldl_acc]
    simp
  have hstop : (stopProcessGroup procs name wait).2.1
      = (procs.filter (fun p => decide (p.group = name))).map
          (fun p => getProcessInfo (procStop p wait)) := by
    unfold stopProcessGroup
    rw [groupOp_foldl_acc]
    simp
  refine ⟨rfl, rfl, hstart, hstop, ?_⟩
  intro h
  have hfil : procs.filter (fun p => decide (p.group = name)) = [] := by
    rw [List.filter_eq_nil_iff]
    intro p hp
    simpa using h p hp
  rw [hstart, hstop, hfil]
  exact ⟨rfl, rfl⟩

/-- Concrete instantiation of `c7_group_fanout`: a group with zero
members (`g2` while the only process is in `g1`) replies with an empty
list and no error. -/
theorem c7_group_fanout_witness :
    (startProcessGroup [⟨"a", "g1", ProcState.Stopped⟩] "g2" true).2.1 = []
    ∧ (startProcessGroup [⟨"a", "g1", ProcState.Stopped⟩] "g2" true).2.2 = none :=
  ⟨((c7_group_fanout [⟨"a", "g1", ProcState.Stopped⟩] "g2" true).2.2.2.2
      (by decide)).1,
   (c7_group_fanout [⟨"a", "g1", ProcState.Stopped⟩] "g2" true).1⟩

/-- Claim C8: stopping a named process that does not exist fails with the
not-found error and leaves the process set (and the `false` zero value of
`Success`) unchanged; stopping an existing process replies
`Success = true` with no error. -/
theorem c8_stop_single (procs : List Process) (name : String) (wait : Bool) :
    (findProc procs name = none →
      stopProcess procs name wait
        = (procs, false, some ("fail to find process " ++ name)))
    ∧ (∀ p, findProc procs name = some p →
        (stopProcess procs name wait).2.1 = true
        ∧ (stopProcess procs name wait).2.2 = none) := by
  constructor
  · intro h
    unfold stopProcess
    rw [h]
  · intro p h
    unfold stopProcess
    rw [h]
    exact ⟨rfl, rfl⟩

/-- Concrete instantiation of `c8_stop_single`: stopping the absent `b`
returns the not-found error with the set untouched; stopping the present
`a` succeeds. -/
theorem c8_stop_single_witness :
    stopProcess [⟨"a", "g", ProcState.Running⟩] "b" true
      = ([⟨"a", "g", ProcState.Running⟩], false, some ("fail to find process " ++ "b"))
    ∧ (stopProcess [⟨"a", "g", ProcState.Running⟩] "a" true).2.1 = true :=
  ⟨(c8_stop_single [⟨"a", "g", ProcState.Running⟩] "b" true).1 (by decide),
   ((c8_stop_single [⟨"a", "g", ProcState.Running⟩] "a" true).2
      ⟨"a", "g", ProcState.Running⟩ (by decide)).1⟩

/-- Claim C9: the daemon-state operation replies statecode 1 / RUNNING
whatever the supervisor state; the RESTARTING (0) and FATAL (2) codes of
the source's own comment are never returned. -/
theorem c9_getState_constant (s : SupervisorState) :
    getState s = ⟨1, "RUNNING"⟩
    ∧ (getState s).statecode ≠ 0
    ∧ (getState s).statecode ≠ 2 := by
  refine ⟨rfl, ?_, ?_⟩
  · simp [getState]
  · simp [getState]

/-- Concrete instantiation of `c9_getState_constant`: even with the
restarting flag set the reply is RUNNING. -/
theorem c9_getState_constant_witness :
    getState ⟨[], [], [], true⟩ = ⟨1, "RUNNING"⟩ :=
  (c9_getState_constant ⟨[], [], [], true⟩).1

/-- Claim C10: `AddProcessGroup` and `RemoveProcessGroup` reply
`Success = false` with no error and leave the whole supervisor state
unchanged. -/
theorem c10_group_stubs (s : SupervisorState) (name : String) :
    addProcessGroup s name = (s, false, none)
    ∧ removeProcessGroup s name = (s, false, none) :=
  ⟨rfl, rfl⟩

/-! ### Lemmas about config entry reuse on reload (C6) -/

theorem lookupA_eq_none_iff {β : Type} (l : List (String × β)) (k : String) :
    lookupA l k = none ↔ k ∉ keysA l := by
  induction l with
  | nil => simp [lookupA, keysA]
  | cons p rest ih =>
    obtain ⟨k1, v1⟩ := p
    by_cases h : k = k1
    · simp [lookupA, h, keysA]
    · simp [lookupA, h, keysA, ih]

theorem lookupA_foldl_setA {β : Type} (l : List (String × β)) (k : String) :
    ∀ a0 : List (String × β), (keysA l).Nodup →
    lookupA (l.foldl (fun kv p => setA kv p.1 p.2) a0) k
      = (match lookupA l k with
         | some v => some v
         | none => lookupA a0 k) := by
  induction l with
  | nil => intro a0 _; simp [lookupA]
  | cons p rest ih =>
    intro a0 hnd
    obtain ⟨k1, v1⟩ := p
    rw [List.foldl_cons]
    have hcons : (k1 :: keysA rest).Nodup := by simpa [keysA] using hnd
    have hk1 : k1 ∉ keysA rest := (List.nodup_cons.mp hcons).1
    have hnd2 : (keysA rest).Nodup := (List.nodup_cons.mp hcons).2
    rw [ih (setA a0 k1 v1) hnd2]
    by_cases h : k = k1
    · subst h
      rw [(lookupA_eq_none_iff rest k).mpr hk1]
      simp [lookupA, lookupA_setA_self]
    · rw [lookupA_setA_ne a0 k1 k v1 h]
      simp [lookupA, h]

/-- Claim C6: on reload, a section whose resolved name already has an
entry reuses that entry in place: every key present in the new parse
overwrites the stored value, and every key absent from the new parse
keeps its previous value. -/
theorem c6_entry_reuse (entries : Entries) (configDir : String) (sect : PSection)
    (oldEntry : ConfigEntry)
    (hold : lookupA entries sect.name = some oldEntry)
    (hnd : (keysA sect.keys).Nodup) :
    createEntry entries sect.name configDir = oldEntry
    ∧ lookupA (parseSectionEntry entries configDir sect) sect.name
        = some (entryParse oldEntry sect)
    ∧ (∀ k v, lookupA sect.keys k = some v →
        lookupA (entryParse oldEntry sect).keyValues k = some v)
    ∧ (∀ k, lookupA sect.keys k = none →
        lookupA (entryParse oldEntry sect).keyValues k
          = lookupA oldEntry.keyValues k) := by
  have hce : createEntry entries sect.name configDir = oldEntry := by
    unfold createEntry
    rw [hold]
  refine ⟨hce, ?_, ?_, ?_⟩
  · unfold parseSectionEntry
    rw [hce, lookupA_setA_self]
  · intro k v hk
    unfold entryParse
    simp only
    rw [lookupA_foldl_setA sect.keys k oldEntry.keyValues hnd, hk]
  · intro k hk
    unfold entryParse
    simp only
    rw [lookupA_foldl_setA sect.keys k oldEntry.keyValues hnd, hk]

/-- Concrete instantiation of `c6_entry_reuse`: reloading section `web`
with only a new `command` overwrites `command` but keeps the stale
`autostart` value. -/
theorem c6_entry_reuse_witness :
    lookupA (entryParse ⟨"/etc", "", "web", [("command", "old"), ("autostart", "true")]⟩
        ⟨"web", [("command", "new")]⟩).keyValues "command" = some "new"
    ∧ lookupA (entryParse ⟨"/etc", "", "web", [("command", "old"), ("autostart", "true")]⟩
        ⟨"web", [("command", "new")]⟩).keyValues "autostart" = some "true" := by
  constructor
  · exact (c6_entry_reuse
      [("web", ⟨"/etc", "", "web", [("command", "old"), ("autostart", "true")]⟩)]
      "/etc" ⟨"web", [("command", "new")]⟩
      ⟨"/etc", "", "web", [("command", "old"), ("autostart", "true")]⟩
      (by decide) (by decide)).2.2.1 "command" "new" (by decide)
  · rw [(c6_entry_reuse
      [("web", ⟨"/etc", "", "web", [("command", "old"), ("autostart", "true")]⟩)]
      "/etc" ⟨"web", [("command", "new")]⟩
      ⟨"/etc", "", "web", [("command", "old"), ("autostart", "true")]⟩
      (by decide) (by decide)).2.2.2 "autostart" (by decide)]
    decide

/-! ### Lemmas about the program expander (C3) -/

theorem lookupA_append {β : Type} (l1 l2 : List (String × β)) (k : String) :
    lookupA (l1 ++ l2) k
      = (match lookupA l1 k with
         | some v => some v
         | none => lookupA l2 k) := by
  induction l1 with
  | nil => simp [lookupA]
  | cons p rest ih =>
    obtain ⟨k1, v1⟩ := p
    by_cases h : k = k1
    · simp [lookupA, h]
    · simp [lookupA, h, ih]

theorem setA_append_absent {β : Type} (l : List (String × β)) (k : String) (v : β)
    (h : lookupA l k = none) : setA l k v = l ++ [(k, v)] := by
  induction l with
  | nil => simp [setA]
  | cons p rest ih =>
    obtain ⟨k1, v1⟩ := p
    by_cases h1 : k = k1
    · rw [lookupA, if_pos h1] at h
      cases h
    · rw [lookupA, if_neg h1] at h
      simp [setA, h1, ih h]

theorem setA_cons_eq {β : Type} (k1 : String) (v1 : β) (rest : List (String × β))
    (k : String) (v : β) (h : k = k1) :
    setA ((k1, v1) :: rest) k v = (k, v) :: rest := by
  simp [setA, h]

theorem setA_cons_ne {β : Type} (k1 : String) (v1 : β) (rest : List (String × β))
    (k : String) (v : β) (h : ¬ k = k1) :
    setA ((k1, v1) :: rest) k v = (k1, v1) :: setA rest k v := by
  simp [setA, h]

theorem mem_keysA_setA {β : Type} (l : List (String × β)) (k x : String) (v : β) :
    x ∈ keysA (setA l k v) ↔ (x ∈ keysA l ∨ x = k) := by
  induction l with
  | nil =>
    show x ∈ [k] ↔ (x ∈ ([] : List String) ∨ x = k)
    simp
  | cons p rest ih =>
    obtain ⟨k1, v1⟩ := p
    by_cases h : k = k1
    · subst h
      rw [setA_cons_eq k v1 rest k v rfl]
      rw [show keysA ((k, v) :: rest) = k :: keysA rest from rfl,
          show keysA ((k, v1) :: rest) = k :: keysA rest from rfl]
      simp only [List.mem_cons]
      tauto
    · rw [setA_cons_ne k1 v1 rest k v h]
      rw [show keysA ((k1, v1) :: setA rest k v) = k1 :: keysA (setA rest k v) from rfl,
          show keysA ((k1, v1) :: rest) = k1 :: keysA rest from rfl]
      simp only [List.mem_cons, ih]
      tauto

theorem nodup_keysA_setA {β : Type} (l : List (String × β)) (k : String) (v : β)
    (h : (keysA l).Nodup) : (keysA (setA l k v)).Nodup := by
  induction l with
  | nil => simp [setA, keysA]
  | cons p rest ih =>
    obtain ⟨k1, v1⟩ := p
    have hcons := List.nodup_cons.mp (show (k1 :: keysA rest).Nodup from h)
    by_cases h1 : k = k1
    · subst h1
      rw [setA_cons_eq k v1 rest k v rfl]
      rw [show keysA ((k, v) :: rest) = k :: keysA rest from rfl]
      rw [List.nodup_cons]
      exact hcons
    · rw [setA_cons_ne k1 v1 rest k v h1]
      rw [show keysA ((k1, v1) :: setA rest k v) = k1 :: keysA (setA rest k v) from rfl]
      rw [List.nodup_cons]
      refine ⟨?_, ih hcons.2⟩
      rw [mem_keysA_setA]
      rintro (hmem | heq)
      · exact hcons.1 hmem
      · exact h1 heq.symm

theorem keysA_append {β : Type} (l1 l2 : List (String × β)) :
    keysA (l1 ++ l2) = keysA l1 ++ keysA l2 := by
  simp [keysA]

theorem foldl_range'_eq_stateAt (ctx : ParseCtx) (entries : Entries)
    (sect : PSection) (k : Nat) :
    (List.range' 1 k).foldl (expandStep ctx) (entries, sect)
      = stateAt ctx entries sect k := by
  induction k with
  | zero => rfl
  | succ n ih =>
    rw [List.range'_1_concat, List.foldl_append, ih, Nat.add_comm 1 n]
    rfl

theorem sectWarnings_spec (sect : PSection) :
    sectWarnings sect ≠ []
      ↔ (1 < sectNumProcs sect
          ∧ hasKey sect "process_name" = true
          ∧ ¬ (processNumPlaceholder.data
                 <:+: (getKeyVal sect "process_name").data)) := by
  unfold sectWarnings
  by_cases h : 1 < sectNumProcs sect
      ∧ hasKey sect "process_name" = true
      ∧ ¬ (processNumPlaceholder.data <:+: (getKeyVal sect "process_name").data)
  · rw [if_pos h]
    simp [h]
  · rw [if_neg h]
    simp [h]

theorem parseProgramSection_panics (cfgDir : String) (entries : Entries)
    (pgAssoc : List (String × String)) (sect : PSection) (pre : String)
    (hpre : sectionPre sect = some pre) (hp : sectPanics sect = true) :
    parseProgramSection cfgDir entries pgAssoc sect = none := by
  unfold parseProgramSection
  rw [hpre, hp]
  rfl

theorem expandStep_success (ctx : ParseCtx) (st : Entries × PSection) (i : Nat)
    (cmd procName : String)
    (hc : eval (envsAt ctx i) (getKeyVal st.2 "command") = some cmd)
    (hn : eval (envsAt ctx i) ctx.originalProcName = some procName) :
    expandStep ctx st i
      = (setA st.1 procName
          { entryParse (createEntry st.1 procName ctx.cfgDir)
              (setKey (setKey (setKey (setKey st.2 "command" cmd)
                "process_name" procName) "numprocs_start" (toString (i - 1)))
                "process_num" (toString i)) with
            name := ctx.pre ++ procName, group := ctx.groupName },
         setKey (setKey (setKey (setKey st.2 "command" cmd)
           "process_name" procName) "numprocs_start" (toString (i - 1)))
           "process_num" (toString i)) := by
  unfold expandStep
  rw [hc, hn]

theorem stateAt_invariant (ctx : ParseCtx) (entries : Entries) (sect : PSection)
    (N : Nat) (nm : Nat → String)
    (hnd : (keysA sect.keys).Nodup)
    (hname : ∀ i ∈ List.range' 1 N,
      eval (envsAt ctx i) ctx.originalProcName = some (nm i))
    (hdist : ∀ i ∈ List.range' 1 N, ∀ j ∈ List.range' 1 N, i ≠ j → nm i ≠ nm j)
    (hfresh : ∀ i ∈ List.range' 1 N, lookupA entries (nm i) = none)
    (hcmd : ∀ i ∈ List.range' 1 N,
      (eval (envsAt ctx i)
        (getKeyVal (stateAt ctx entries sect (i - 1)).2 "command")).isSome) :
    ∀ k, k ≤ N → ∃ news : Entries,
      (stateAt ctx entries sect k).1 = entries ++ news
      ∧ keysA news = (List.range' 1 k).map nm
      ∧ (∀ i ∈ List.range' 1 k, ∃ e, lookupA news (nm i) = some e
          ∧ lookupA e.keyValues "process_num" = some (toString i)
          ∧ lookupA e.keyValues "numprocs_start" = some (toString (i - 1))
          ∧ e.name = ctx.pre ++ nm i)
      ∧ (keysA (stateAt ctx entries sect k).2.keys).Nodup := by
  intro k
  induction k with
  | zero =>
    intro _
    exact ⟨[], by simp [stateAt], by simp [keysA], by simp, by
      simpa [stateAt] using hnd⟩
  | succ n ih =>
    intro hkN
    obtain ⟨news, h1, h2, h3, h4⟩ := ih (Nat.le_of_succ_le hkN)
    have hmemN : (n + 1) ∈ List.range' 1 N := by
      rw [List.mem_range'_1]
      omega
    obtain ⟨cmd, hcmdv⟩ := Option.isSome_iff_exists.mp (hcmd (n + 1) hmemN)
    have hnamev := hname (n + 1) hmemN
    have hfreshnews : lookupA news (nm (n + 1)) = none := by
      rw [lookupA_eq_none_iff, h2]
      intro hmem
      rw [List.mem_map] at hmem
      obtain ⟨j, hj, hje⟩ := hmem
      have hjr := List.mem_range'_1.mp hj
      have hjN : j ∈ List.range'  1 N := by
        rw [List.mem_range'_1]
        omega
      exact hdist j hjN (n + 1) hmemN (by omega) hje
    have hfresh1 : lookupA (stateAt ctx entries sect n).1 (nm (n + 1)) = none := by
      rw [h1, lookupA_append, hfresh (n + 1) hmemN, hfreshnews]
    have hstep := expandStep_success ctx (stateAt ctx entries sect n) (n + 1)
      cmd (nm (n + 1)) hcmdv hnamev
    have hsucc : stateAt ctx entries sect (n + 1)
        = expandStep ctx (stateAt ctx entries sect n) (n + 1) := rfl
    set stn := stateAt ctx entries sect n with hstn
    set sect2 := setKey (setKey (setKey (setKey stn.2 "command" cmd)
      "process_name" (nm (n + 1))) "numprocs_start" (toString (n + 1 - 1)))
      "process_num" (toString (n + 1)) with hsect2
    set entry2 : ConfigEntry :=
      { entryParse (createEntry stn.1 (nm (n + 1)) ctx.cfgDir) sect2 with
        name := ctx.pre ++ nm (n + 1), group := ctx.groupName } with hentry2
    have hce : createEntry stn.1 (nm (n + 1)) ctx.cfgDir
        = newConfigEntry ctx.cfgDir := by
      unfold createEntry
      rw [hfresh1]
    have hnd2 : (keysA sect2.keys).Nodup := by
      rw [hsect2]
      exact nodup_keysA_setA _ _ _ (nodup_keysA_setA _ _ _
        (nodup_keysA_setA _ _ _ (nodup_keysA_setA _ _ _ h4)))
    have hpn : lookupA sect2.keys "process_num" = some (toString (n + 1)) := by
      rw [hsect2]
      exact lookupA_setA_self _ _ _
    have hns : lookupA sect2.keys "numprocs_start" = some (toString (n + 1 - 1)) := by
      rw [hsect2]
      rw [show (setKey (setKey (setKey (setKey stn.2 "command" cmd)
        "process_name" (nm (n + 1))) "numprocs_start" (toString (n + 1 - 1)))
        "process_num" (toString (n + 1))).keys
        = setA (setA (setKey (setKey stn.2 "command" cmd)
            "process_name" (nm (n + 1))).keys "numprocs_start" (toString (n + 1 - 1)))
            "process_num" (toString (n + 1)) from rfl]
      rw [lookupA_setA_ne _ _ _ _ (by decide)]
      exact lookupA_setA_self _ _ _
    have hkv : entry2.keyValues
        = sect2.keys.foldl (fun kv p => setA kv p.1 p.2) [] := by
      rw [hentry2, hce]
      rfl
    have hepn : lookupA entry2.keyValues "process_num"
        = some (toString (n + 1)) := by
      rw [hkv, lookupA_foldl_setA sect2.keys _ [] hnd2, hpn]
    have hens : lookupA entry2.keyValues "numprocs_start"
        = some (toString (n + 1 - 1)) := by
      rw [hkv, lookupA_foldl_setA sect2.keys _ [] hnd2, hns]
    have hset : setA stn.1 (nm (n + 1)) entry2 = stn.1 ++ [(nm (n + 1), entry2)] :=
      setA_append_absent _ _ _ hfresh1
    refine ⟨news ++ [(nm (n + 1), entry2)], ?_, ?_, ?_, ?_⟩
    · rw [hsucc, hstep]
      show setA stn.1 (nm (n + 1)) entry2 = entries ++ (news ++ [(nm (n + 1), entry2)])
      rw [hset, h1, List.append_assoc]
    · rw [keysA_append, h2, List.range'_1_concat]
      simp [keysA, Nat.add_comm]
    · intro i hi
      rw [List.range'_1_concat] at hi
      rcases List.mem_append.mp hi with hi | hi
      · obtain ⟨e, he1, he2, he3, he4⟩ := h3 i hi
        refine ⟨e, ?_, he2, he3, he4⟩
        rw [lookupA_append, he1]
      · have hieq : i = n + 1 := by
          rw [List.mem_singleton] at hi
          omega
        subst hieq
        refine ⟨entry2, ?_, hepn, hens, ?_⟩
        · rw [lookupA_append, hfreshnews]
          simp [lookupA]
        · rw [hentry2]
    · rw [hsucc, hstep]
      exact hnd2

/-- The non-panicking path of the program expander: for a program or
eventlistener section with `numprocs = N` that does not hit the
nil-key panic, whose per-instance command and instance-name evaluations
succeed and whose generated instance names are pairwise distinct and
fresh, parsing produces exactly N new entries, with `process_num`
running over 1..N and `numprocs_start` over 0..N-1 and the prefixed
generated name; the defect report fires exactly when `numprocs > 1` and
the `process_name` pattern is present but lacks the `process_num`
placeholder. -/
theorem c3_program_expansion (cfgDir : String) (entries : Entries)
    (pgAssoc : List (String × String)) (sect : PSection) (pre : String)
    (N : Nat) (nm : Nat → String)
    (hpre : sectionPre sect = some pre)
    (hN : (sectNumProcs sect).toNat = N)
    (hnp : sectPanics sect = false)
    (hnd : (keysA sect.keys).Nodup)
    (hname : ∀ i ∈ List.range' 1 N,
      eval (envsAt (sectCtx cfgDir pgAssoc sect pre) i)
        (sectCtx cfgDir pgAssoc sect pre).originalProcName = some (nm i))
    (hdist : ∀ i ∈ List.range' 1 N, ∀ j ∈ List.range' 1 N, i ≠ j → nm i ≠ nm j)
    (hfresh : ∀ i ∈ List.range' 1 N, lookupA entries (nm i) = none)
    (hcmd : ∀ i ∈ List.range' 1 N,
      (eval (envsAt (sectCtx cfgDir pgAssoc sect pre) i)
        (getKeyVal
          (stateAt (sectCtx cfgDir pgAssoc sect pre) entries sect (i - 1)).2
          "command")).isSome) :
    ∃ newEntries warns,
      parseProgramSection cfgDir entries pgAssoc sect = some (newEntries, warns)
      ∧ newEntries.length = entries.length + N
      ∧ (∀ i ∈ List.range' 1 N, ∃ e,
          lookupA newEntries (nm i) = some e
          ∧ lookupA e.keyValues "process_num" = some (toString i)
          ∧ lookupA e.keyValues "numprocs_start" = some (toString (i - 1))
          ∧ e.name = pre ++ nm i)
      ∧ (warns ≠ []
          ↔ (1 < sectNumProcs sect
              ∧ hasKey sect "process_name" = true
              ∧ ¬ (processNumPlaceholder.data
                     <:+: (getKeyVal sect "process_name").data))) := by
  obtain ⟨news, h1, h2, h3, -⟩ :=
    stateAt_invariant (sectCtx cfgDir pgAssoc sect pre) entries sect N nm
      hnd hname hdist hfresh hcmd N (le_refl N)
  have hps : parseProgramSection cfgDir entries pgAssoc sect
      = some ((stateAt (sectCtx cfgDir pgAssoc sect pre) entries sect N).1,
              sectWarnings sect) := by
    unfold parseProgramSection
    rw [hpre]
    dsimp only
    rw [hN, foldl_range'_eq_stateAt, hnp]
    simp
  refine ⟨(stateAt (sectCtx cfgDir pgAssoc sect pre) entries sect N).1,
    sectWarnings sect, hps, ?_, ?_, ?_⟩
  · rw [h1, List.length_append]
    have hlen : news.length = N := by
      have hc := congrArg List.length h2
      simpa [keysA] using hc
    omega
  · intro i hi
    obtain ⟨e, he1, he2, he3, he4⟩ := h3 i hi
    refine ⟨e, ?_, he2, he3, he4⟩
    rw [h1, lookupA_append, hfresh i hi, he1]
  · exact sectWarnings_spec sect

/-- Concrete instantiation of `c3_program_expansion`: the spec's scenario
section (`numprocs = 3`, pattern with program name and process number)
does not panic and produces the entry `web_2` with `process_num = 2`,
`numprocs_start = 1` and name `program:web_2`. -/
theorem c3_program_expansion_witness :
    ∃ newEntries warns e,
      parseProgramSection "/etc" [] [] c3Sect = some (newEntries, warns)
      ∧ lookupA newEntries ("web_" ++ toString 2) = some e
      ∧ lookupA e.keyValues "process_num" = some (toString 2)
      ∧ lookupA e.keyValues "numprocs_start" = some (toString 1)
      ∧ e.name = "program:" ++ ("web_" ++ toString 2) := by
  obtain ⟨newEntries, warns, hsome, -, hent, -⟩ :=
    c3_program_expansion "/etc" [] [] c3Sect "program:" 3
      (fun i => "web_" ++ toString i) (by decide) (by decide) (by decide)
      (by decide) (by decide) (by decide) (by decide) (by decide)
  obtain ⟨e, he1, he2, he3, he4⟩ := hent 2 (by decide)
  exact ⟨newEntries, warns, e, hsome, he1, he2, he3, he4⟩

/-- Claim C3 (code bug): at the failing input — a `program:` section
whose own name carries the `process_num` placeholder, with
`numprocs = 2`, an evaluable command and no `process_name` key — the
defect check panics (the `log.Fields` literal of `Config.parseProgram`
evaluates `procNameKey.Value()` on the nil key) and the load aborts with
no entries created, whereas the claim — and §3 of the spec, which calls a
missing placeholder "a reportable configuration warning, not fatal" —
promises N = 2 expanded entries with the defect merely surfaced. -/
theorem c3_panic_on_missing_process_name :
    sectPanics c3PanicSect = true
    ∧ parseProgramSection "/etc" [] [] c3PanicSect = none := by
  constructor
  · decide
  · decide

/-! ### Lemmas about the nested-array reply decoder (C4, C5) -/

theorem stringLeaves_map_str (l : List String) :
    stringLeaves (l.map XValue.str) = some l := by
  induction l with
  | nil => rfl
  | cons s rest ih => simp [stringLeaves, ih]

/-- Claim C4: decoding a reply made of one outer array with three inner
string arrays assigns the first inner array to `added`, the second to
`changed`, the third to `removed`, in order; decoding the encoding of any
triple yields back the identical lists. -/
theorem c4_decode_positional (a c r : List String) :
    decodeReply (XValue.arr [XValue.arr (a.map XValue.str),
        XValue.arr (c.map XValue.str), XValue.arr (r.map XValue.str)])
      = some ⟨a, c, r⟩
    ∧ decodeReply (encodeReply ⟨a, c, r⟩) = some ⟨a, c, r⟩ := by
  have h : innerLists [XValue.arr (a.map XValue.str),
      XValue.arr (c.map XValue.str), XValue.arr (r.map XValue.str)]
      = some [a, c, r] := by
    simp [innerLists, stringLeaves_map_str]
  constructor
  · simp [decodeReply, h]
  · simp [encodeReply, decodeReply, h]

theorem innerLists_length (l : List XValue) (ls : List (List String))
    (h : innerLists l = some ls) : ls.length = l.length := by
  induction l generalizing ls with
  | nil =>
    simp [innerLists] at h
    simp [h]
  | cons v rest ih =>
    cases v with
    | str s => simp [innerLists] at h
    | arr items =>
      unfold innerLists at h
      cases h1 : stringLeaves items with
      | none => rw [h1] at h; simp at h
      | some l0 =>
        cases h2 : innerLists rest with
        | none => rw [h1, h2] at h; simp at h
        | some ls0 =>
          rw [h1, h2] at h
          simp at h
          rw [← h]
          simp [ih ls0 h2]

theorem innerLists_str_mem (inners : List XValue) (s : String)
    (h : XValue.str s ∈ inners) : innerLists inners = none := by
  induction inners with
  | nil => cases h
  | cons v rest ih =>
    cases v with
    | str t => rfl
    | arr items =>
      have hmem : XValue.str s ∈ rest := by
        rcases List.mem_cons.mp h with h1 | h1
        · cases h1
        · exact h1
      unfold innerLists
      rw [ih hmem]
      cases stringLeaves items <;> rfl

/-- Claim C5: a reply body with more than three inner arrays, or with a
string leaf outside any inner array (either as the whole body or as a
direct element of the outer array), fails to decode. -/
theorem c5_decode_malformed (inners : List XValue) (s : String) :
    (3 < inners.length → decodeReply (XValue.arr inners) = none)
    ∧ decodeReply (XValue.str s) = none
    ∧ (XValue.str s ∈ inners → decodeReply (XValue.arr inners) = none) := by
  refine ⟨?_, rfl, ?_⟩
  · intro h3
    cases hil : innerLists inners with
    | none => simp [decodeReply, hil]
    | some ls =>
      have hlen : ls.length = inners.length := innerLists_length inners ls hil
      simp only [decodeReply, hil]
      rw [if_neg (by omega)]
  · intro hmem
    simp [decodeReply, innerLists_str_mem inners s hmem]

/-- Concrete instantiation of `c5_decode_malformed`: four inner arrays
fail, a bare leaf fails, and a leaf sitting in the outer array fails. -/
theorem c5_decode_malformed_witness :
    decodeReply (XValue.arr [XValue.arr [], XValue.arr [], XValue.arr [],
        XValue.arr []]) = none
    ∧ decodeReply (XValue.str "g") = none
    ∧ decodeReply (XValue.arr [XValue.str "g"]) = none :=
  ⟨(c5_decode_malformed [XValue.arr [], XValue.arr [], XValue.arr [],
      XValue.arr []] "g").1 (by simp),
   (c5_decode_malformed [] "g").2.1,
   (c5_decode_malformed [XValue.str "g"] "g").2.2 (List.mem_singleton.mpr rfl)⟩

end Supervisord
